import Mathlib

/-!
Verification of the trakt-data repository: a shallow embedding of the
freshness classifier (`src/trakt_data/export.py`), the weighted cache
eviction selector (`trakt_data.py`), the cache pruner
(`src/trakt_data/cache.py`), the partitioned file store and the JSON
persistence helper, together with theorems settling the specification's
claims about them.

Modelling conventions:
- A filesystem path is a list of components (`Path := List String`);
  `a / b` in Python becomes `a ++ [b]`.
- ISO-8601 timestamp strings are modelled by the instants they denote, as
  integers (seconds); `datetime.fromisoformat(a) >= datetime.fromisoformat(b)`
  becomes `a ≥ b` on the integers, and the Unix epoch
  (`datetime.fromtimestamp(0)`) is `0`.
- `random.random()` draws are an explicit parameter (a function from the
  draw position to a rational in `[0,1)`); `random.shuffle` results are an
  explicit permutation parameter.
- The filesystem is an explicit association list from paths to records.
-/

/-- A filesystem path, as its list of components. -/
abbrev TPath := List String

/-! ### Activity snapshots (`LastActivities` in `trakt.py`)

Only the fields read by `_activities_outdated_paths` and its helpers are
modelled.  Each field holds the instant denoted by the ISO-8601 string. -/

/-- `movies` sub-record of the activity snapshot. -/
structure MoviesLA where
  collected_at : Int
  watched_at : Int
  rated_at : Int
  commented_at : Int
  paused_at : Int
  hidden_at : Int
deriving DecidableEq

/-- `episodes` sub-record of the activity snapshot. -/
structure EpisodesLA where
  collected_at : Int
  watched_at : Int
  rated_at : Int
  commented_at : Int
  paused_at : Int
deriving DecidableEq

/-- `shows` sub-record of the activity snapshot. -/
structure ShowsLA where
  rated_at : Int
  commented_at : Int
  hidden_at : Int
  dropped_at : Int
deriving DecidableEq

/-- `seasons` sub-record of the activity snapshot. -/
structure SeasonsLA where
  rated_at : Int
  commented_at : Int
  hidden_at : Int
deriving DecidableEq

/-- `comments` sub-record of the activity snapshot. -/
structure CommentsLA where
  liked_at : Int
deriving DecidableEq

/-- `lists` sub-record of the activity snapshot. -/
structure ListsLA where
  liked_at : Int
  updated_at : Int
  commented_at : Int
deriving DecidableEq

/-- `watchlist` sub-record of the activity snapshot. -/
structure WatchlistLA where
  updated_at : Int
deriving DecidableEq

/-- `account` sub-record of the activity snapshot. -/
structure AccountLA where
  settings_at : Int
deriving DecidableEq

/-- The activity snapshot returned by `/sync/last_activities`. -/
structure LastActivities where
  all : Int
  movies : MoviesLA
  episodes : EpisodesLA
  shows : ShowsLA
  seasons : SeasonsLA
  comments : CommentsLA
  lists : ListsLA
  watchlist : WatchlistLA
  account : AccountLA
deriving DecidableEq

/-- `_compare_datetime_strs(a, b)`: `fromisoformat(a) >= fromisoformat(b)`. -/
def compareDatetimeStrs (a b : Int) : Bool :=
  a ≥ b

/-- `_last_hidden_at_activities`: max of the three `hidden_at` fields. -/
def lastHiddenAtActivities (a : LastActivities) : Int :=
  max a.movies.hidden_at (max a.shows.hidden_at a.seasons.hidden_at)

/-- `_last_dropped_at_activities`: `shows.dropped_at`. -/
def lastDroppedAtActivities (a : LastActivities) : Int :=
  a.shows.dropped_at

/-- `_last_watched_at_activities`: max of movie and episode `watched_at`. -/
def lastWatchedAtActivities (a : LastActivities) : Int :=
  max a.movies.watched_at a.episodes.watched_at

/-- `_last_paused_at_activities`: max of movie and episode `paused_at`. -/
def lastPausedAtActivities (a : LastActivities) : Int :=
  max a.movies.paused_at a.episodes.paused_at

/-- The freshness mapping table: the `exports` list in
`_activities_outdated_paths`, each entry as the field selector
(`activities[namespace_key][activity_key]`) paired with the output path. -/
def exportsTable (dataPath : TPath) : List ((LastActivities → Int) × TPath) :=
  [ (fun a => a.movies.collected_at, dataPath ++ ["collection", "collection-movies.json"]),
    (fun a => a.movies.watched_at, dataPath ++ ["watched", "watched-movies.json"]),
    (fun a => a.movies.rated_at, dataPath ++ ["ratings", "ratings-movies.json"]),
    (fun a => a.movies.commented_at, dataPath ++ ["comments", "comments-movies.json"]),
    (fun a => a.episodes.collected_at, dataPath ++ ["collection", "collection-shows.json"]),
    (fun a => a.episodes.watched_at, dataPath ++ ["watched", "watched-shows.json"]),
    (fun a => a.episodes.watched_at, dataPath ++ ["watched", "progress-shows.json"]),
    (fun a => a.episodes.watched_at, dataPath ++ ["watched", "up-next.json"]),
    (fun a => a.episodes.rated_at, dataPath ++ ["ratings", "ratings-episodes.json"]),
    (fun a => a.episodes.commented_at, dataPath ++ ["comments", "comments-episodes.json"]),
    (fun a => a.shows.rated_at, dataPath ++ ["ratings", "ratings-shows.json"]),
    (fun a => a.shows.commented_at, dataPath ++ ["comments", "comments-shows.json"]),
    (fun a => a.seasons.rated_at, dataPath ++ ["ratings", "ratings-seasons.json"]),
    (fun a => a.seasons.commented_at, dataPath ++ ["comments", "comments-seasons.json"]),
    (fun a => a.comments.liked_at, dataPath ++ ["likes", "likes-comments.json"]),
    (fun a => a.lists.liked_at, dataPath ++ ["likes", "likes-lists.json"]),
    (fun a => a.lists.updated_at, dataPath ++ ["lists", "lists.json"]),
    (fun a => a.lists.commented_at, dataPath ++ ["comments", "comments-lists.json"]),
    (fun a => a.watchlist.updated_at, dataPath ++ ["lists", "watchlist.json"]),
    (fun a => a.account.settings_at, dataPath ++ ["user", "profile.json"]) ]

/-- The five `hidden-*` files governed by the derived hidden watermark. -/
def hiddenGroup (dataPath : TPath) : List TPath :=
  [ dataPath ++ ["hidden", "hidden-calendar.json"],
    dataPath ++ ["hidden", "hidden-progress-collected.json"],
    dataPath ++ ["hidden", "hidden-progress-watched-reset.json"],
    dataPath ++ ["hidden", "hidden-progress-watched.json"],
    dataPath ++ ["hidden", "hidden-recommendations.json"] ]

/-- The `_mark_path` call sequence of `_activities_outdated_paths`: every
governed path, in program order, paired with its computed `fresh` flag.
Each flag defaults to `False` and is only computed when `old_activities`
is present — except the hidden watermark, which substitutes the Unix
epoch (`datetime.fromtimestamp(0)`, here `0`) for a missing old snapshot. -/
def markList (dataPath : TPath) (oldActivities : Option LastActivities)
    (newActivities : LastActivities) : List (TPath × Bool) :=
  let activitiesFresh : Bool :=
    match oldActivities with
    | some o => compareDatetimeStrs o.all newActivities.all
    | none => false
  let historyFresh : Bool :=
    match oldActivities with
    | some o =>
        lastWatchedAtActivities newActivities ≥ lastWatchedAtActivities o
    | none => false
  let playbackFresh : Bool :=
    match oldActivities with
    | some o => lastPausedAtActivities newActivities ≥ lastPausedAtActivities o
    | none => false
  let droppedAtFresh : Bool :=
    match oldActivities with
    | some o => lastDroppedAtActivities newActivities ≥ lastDroppedAtActivities o
    | none => false
  let oldActivitiesHiddenAt : Int :=
    match oldActivities with
    | some o => lastHiddenAtActivities o
    | none => 0
  let hiddenAtFresh : Bool :=
    oldActivitiesHiddenAt ≥ lastHiddenAtActivities newActivities
  [ (dataPath ++ ["user", "last-activities.json"], activitiesFresh),
    (dataPath ++ ["user", "stats.json"], activitiesFresh),
    (dataPath ++ ["watched", "history.json"], historyFresh),
    (dataPath ++ ["watched", "playback.json"], playbackFresh) ]
  ++ (exportsTable dataPath).map (fun e =>
      (e.2,
        match oldActivities with
        | some o => compareDatetimeStrs (e.1 o) (e.1 newActivities)
        | none => false))
  ++ [ (dataPath ++ ["hidden", "hidden-dropped.json"], droppedAtFresh) ]
  ++ (hiddenGroup dataPath).map (fun p => (p, hiddenAtFresh))

/-- `_activities_outdated_paths`: folds the `_mark_path` appends into the
`(fresh_paths, stale_paths)` pair. -/
def activitiesOutdatedPaths (dataPath : TPath)
    (oldActivities : Option LastActivities) (newActivities : LastActivities) :
    List TPath × List TPath :=
  (markList dataPath oldActivities newActivities).foldl
    (fun acc pb => if pb.2 then (acc.1 ++ [pb.1], acc.2) else (acc.1, acc.2 ++ [pb.1]))
    ([], [])

/-- The relative suffixes of every governed path, in mark order. -/
def governedSuffixes : List TPath :=
  [ ["user", "last-activities.json"],
    ["user", "stats.json"],
    ["watched", "history.json"],
    ["watched", "playback.json"],
    ["collection", "collection-movies.json"],
    ["watched", "watched-movies.json"],
    ["ratings", "ratings-movies.json"],
    ["comments", "comments-movies.json"],
    ["collection", "collection-shows.json"],
    ["watched", "watched-shows.json"],
    ["watched", "progress-shows.json"],
    ["watched", "up-next.json"],
    ["ratings", "ratings-episodes.json"],
    ["comments", "comments-episodes.json"],
    ["ratings", "ratings-shows.json"],
    ["comments", "comments-shows.json"],
    ["ratings", "ratings-seasons.json"],
    ["comments", "comments-seasons.json"],
    ["likes", "likes-comments.json"],
    ["likes", "likes-lists.json"],
    ["lists", "lists.json"],
    ["comments", "comments-lists.json"],
    ["lists", "watchlist.json"],
    ["user", "profile.json"],
    ["hidden", "hidden-dropped.json"],
    ["hidden", "hidden-calendar.json"],
    ["hidden", "hidden-progress-collected.json"],
    ["hidden", "hidden-progress-watched-reset.json"],
    ["hidden", "hidden-progress-watched.json"],
    ["hidden", "hidden-recommendations.json"] ]

/-- Every governed path: the marked paths of `_activities_outdated_paths`. -/
def governedPaths (dataPath : TPath) : List TPath :=
  governedSuffixes.map (fun s => dataPath ++ s)

/-- An activity snapshot with every field equal to `t` (test fixture). -/
def constLA (t : Int) : LastActivities :=
  { all := t
    movies := ⟨t, t, t, t, t, t⟩
    episodes := ⟨t, t, t, t, t⟩
    shows := ⟨t, t, t, t⟩
    seasons := ⟨t, t, t⟩
    comments := ⟨t⟩
    lists := ⟨t, t, t⟩
    watchlist := ⟨t⟩
    account := ⟨t⟩ }

/-! ### Orchestrator path predicates (`export.py`) -/

/-- The export context: the fields of `Context` the fetch decisions read. -/
structure Ctx where
  outputDir : TPath
  excludePaths : List TPath
  freshPaths : List TPath
  stalePaths : List TPath

/-- `PurePath.is_relative_to`: `base` is an ancestor of (or equal to) `p`. -/
def pathRelativeTo (p base : TPath) : Bool :=
  match base, p with
  | [], _ => true
  | _ :: _, [] => false
  | b :: bs, c :: cs => b == c && pathRelativeTo cs bs

/-- `_excluded(ctx, path)`: the path equals, or is nested under, some
configured excluded path. -/
def excluded (ctx : Ctx) (p : TPath) : Bool :=
  ctx.excludePaths.any (fun e => p == e || pathRelativeTo p e)

/-- `_fresh(ctx, path)`: a path absent from disk is never fresh; otherwise
membership in `fresh_paths` wins, then `stale_paths`, then the
unknown-freshness fallback (both yield `False`).  `disk` is the set of
paths that exist. -/
def freshCheck (disk : List TPath) (ctx : Ctx) (p : TPath) : Bool :=
  if p ∉ disk then false
  else if p ∈ ctx.freshPaths then true
  else if p ∈ ctx.stalePaths then false
  else false

/-- Whether `_export_user_stats` issues its remote fetch: it returns early
when the output path is excluded or fresh. -/
def exportUserStatsFetches (disk : List TPath) (ctx : Ctx) : Bool :=
  let outputPath := ctx.outputDir ++ ["user", "stats.json"]
  !(excluded ctx outputPath || freshCheck disk ctx outputPath)

/-- Whether `_export_watched_history` issues a remote fetch.  The function
returns early only on `_fresh`; in every other case it calls
`trakt_api_paginated_get` (for the incremental probe when the file exists,
or for the full history otherwise).  It never consults `_excluded`. -/
def exportWatchedHistoryFetches (disk : List TPath) (ctx : Ctx) : Bool :=
  let outputPath := ctx.outputDir ++ ["watched", "history.json"]
  if freshCheck disk ctx outputPath then false else true

/-! ### JSON persistence (`write_json` in `export.py`) -/

/-- One on-disk file: its text content and its modification time. -/
structure FileRec where
  data : String
  mtime : Int
deriving DecidableEq

/-- A filesystem: an association list from paths to file records. -/
abbrev FState := List (TPath × FileRec)

/-- Create or overwrite one file. -/
def fsSet (fs : FState) (p : TPath) (r : FileRec) : FState :=
  (p, r) :: fs.filter (fun e => e.1 ≠ p)

/-- Read one file back. -/
def fsGet (fs : FState) (p : TPath) : Option FileRec :=
  (fs.find? (fun e => e.1 == p)).map (fun e => e.2)

/-- `write_json(path, obj, mtime)`: `path.write_text` stores the rendered
JSON (modelled by the already-serialized string `data`) with the wall-clock
write time as modification time; then `if mtime:` — Python truthiness, so
skipped for `None` and for `0.0` — re-stamps the file via `os.utime` with
the semantic timestamp. -/
def writeJson (fs : FState) (p : TPath) (data : String) (mtime : Option Int)
    (wallClock : Int) : FState :=
  let fs1 := fsSet fs p ⟨data ++ "\n", wallClock⟩
  match mtime with
  | none => fs1
  | some t => if t = 0 then fs1 else fsSet fs1 p ⟨data ++ "\n", t⟩

/-! ### Partitioned file store (`partition_filename`) -/

/-- The two-character shard prefix: `str(id)[:2]`, a single-digit id padded
with a trailing `"0"`. -/
def idShard (id : ℕ) : String :=
  let idStr := Nat.repr id
  if idStr.length = 1 then idStr ++ "0" else idStr.take 2

/-- `partition_filename(basedir, id, suffix)`:
`basedir / id_prefix / f"{id}{suffix}"`. -/
def partitionFilename (basedir : TPath) (id : ℕ) (suffix : String) : TPath :=
  basedir ++ [idShard id, Nat.repr id ++ suffix]

/-- The directory part of a path. -/
def pathParent (p : TPath) : TPath :=
  p.dropLast

/-- The numeric value of a decimal digit character (inverse of
`Nat.digitChar` on `0`–`9`; helper for the injectivity proof). -/
def digitVal (c : Char) : ℕ :=
  if c = '0' then 0 else
  if c = '1' then 1 else
  if c = '2' then 2 else
  if c = '3' then 3 else
  if c = '4' then 4 else
  if c = '5' then 5 else
  if c = '6' then 6 else
  if c = '7' then 7 else
  if c = '8' then 8 else
  if c = '9' then 9 else 0

/-- Decimal value of a digit-character list, most significant first. -/
def digitsVal (a : ℕ) (l : List Char) : ℕ :=
  l.foldl (fun acc c => 10 * acc + digitVal c) a

/-! ### Weighted eviction selector (`_weighted_shuffle` in `trakt_data.py`) -/

/-- Python's descending sort order on `(key, index)` tuples
(`list.sort(reverse=True)`): larger key first, ties broken by larger
index. -/
def keyDescOrder (p q : ℚ × ℕ) : Prop :=
  q.1 < p.1 ∨ (p.1 = q.1 ∧ q.2 ≤ p.2)

instance : DecidableRel keyDescOrder := fun p q => by
  unfold keyDescOrder; infer_instance

/-- `_weighted_shuffle(values, limit)`: weight each value as `1/v`,
normalize the weights, key each index by `normalized_weight * random()`
(the uniform draw for position `i` is `draws i`), sort the `(key, index)`
tuples descending and keep at most `limit` indices.  (The Python function
asserts `sum(weights) > 0`, which its caller guarantees by returning early
on an empty pool.) -/
def weightedShuffle (values : List ℚ) (limit : ℕ) (draws : ℕ → ℚ) : List ℕ :=
  let weights := values.map (fun v => 1 / v)
  let total := weights.sum
  let normalized := weights.map (fun w => w / total)
  let randomized := normalized.enum.map (fun iw => (iw.2 * draws iw.1, iw.1))
  let sorted := randomized.insertionSort keyDescOrder
  let indices := sorted.map (fun ki => ki.2)
  if indices.length ≤ limit then indices else indices.take limit

/-- The eviction selection step of the `prune_cache` command: return early
with nothing selected when the candidate pool is empty, otherwise select
by `_weighted_shuffle` over the candidates' ages.  The result lists the
selected positions in the candidate list. -/
def selectExpired (ages : List ℚ) (limitAbs : ℕ) (draws : ℕ → ℚ) : List ℕ :=
  if ages.isEmpty then [] else weightedShuffle ages limitAbs draws

/-- The uniform random source discretized on a grid: the two draws are
`j0/N` and `j1/N`. -/
def gridDraws (N j0 j1 : ℕ) : ℕ → ℚ :=
  fun i => if i = 0 then (j0 : ℚ) / N else (j1 : ℚ) / N

/-- Candidate pool of two files sorted by age ascending: the younger file
(age `a2`, position `0`) and the older file (age `a1 > a2`, position `1`).
`olderSelCount` counts, over all `N²` equiprobable draw pairs of the grid
model, the outcomes in which `_weighted_shuffle` with `limit = 1` selects
the older file. -/
def olderSelCount (a1 a2 N : ℕ) : ℕ :=
  ((Finset.range N) ×ˢ (Finset.range N)).filter
    (fun jj => 1 ∈ weightedShuffle [(a2 : ℚ), (a1 : ℚ)] 1 (gridDraws N jj.1 jj.2))
    |>.card

/-- Like `olderSelCount`, but counting selections of the younger file. -/
def youngerSelCount (a1 a2 N : ℕ) : ℕ :=
  ((Finset.range N) ×ˢ (Finset.range N)).filter
    (fun jj => 0 ∈ weightedShuffle [(a2 : ℚ), (a1 : ℚ)] 1 (gridDraws N jj.1 jj.2))
    |>.card

/-! ### Cache pruning (`prune_cache_dir` in `cache.py`) -/

/-- Age-ascending order used by `files.sort(key=lambda f: f[2])`. -/
def ageAscOrder (now : Int) (f g : TPath × Int) : Prop :=
  now - f.2 ≤ now - g.2

instance (now : Int) : DecidableRel (ageAscOrder now) := fun f g => by
  unfold ageAscOrder; infer_instance

/-- `prune_cache_dir(cache_dir, min_age, limit, dry_run)`: collect the
files whose modification time is older than `now - min_age`, sort them by
age, return unchanged when the pool or the selection is empty, otherwise
unlink the selected files — except under `--dry-run`, which skips every
`unlink`.  `shuffled` stands for the contents of `indices` after
`random.shuffle`, and `limitAbs` for the computed absolute limit; the
result is the directory contents after the call. -/
def pruneCacheDir (files : List (TPath × Int)) (now minAgeSecs : Int)
    (limitAbs : ℕ) (shuffled : List ℕ) (dryRun : Bool) : List (TPath × Int) :=
  let cands := files.filter (fun f => f.2 < now - minAgeSecs)
  let sorted := cands.insertionSort (ageAscOrder now)
  if sorted.isEmpty then files
  else
    let expiredIndices := shuffled.take limitAbs
    if expiredIndices.isEmpty then files
    else
      (expiredIndices.insertionSort (fun a b => a ≤ b)).foldl
        (fun acc idx =>
          if dryRun then acc
          else
            match sorted.get? idx with
            | some f => acc.filter (fun e => e.1 ≠ f.1)
            | none => acc)
        files

/-! ### Classifier lemmas -/

theorem foldlMark_eq (ms : List (TPath × Bool)) :
    ∀ acc : List TPath × List TPath,
      ms.foldl
        (fun acc pb =>
          if pb.2 then (acc.1 ++ [pb.1], acc.2) else (acc.1, acc.2 ++ [pb.1])) acc
      = (acc.1 ++ ms.filterMap (fun x => if x.2 then some x.1 else none),
         acc.2 ++ ms.filterMap (fun x => if x.2 then none else some x.1)) := by
  induction ms with
  | nil => simp
  | cons hd tl ih =>
    intro acc
    cases h : hd.2 <;> simp [List.foldl_cons, h, ih]

theorem aop_fst (dp : TPath) (o : Option LastActivities) (n : LastActivities) :
    (activitiesOutdatedPaths dp o n).1
      = (markList dp o n).filterMap (fun x => if x.2 then some x.1 else none) := by
  unfold activitiesOutdatedPaths
  rw [foldlMark_eq]
  simp

theorem aop_snd (dp : TPath) (o : Option LastActivities) (n : LastActivities) :
    (activitiesOutdatedPaths dp o n).2
      = (markList dp o n).filterMap (fun x => if x.2 then none else some x.1) := by
  unfold activitiesOutdatedPaths
  rw [foldlMark_eq]
  simp

theorem mem_fresh_iff (dp : TPath) (o : Option LastActivities) (n : LastActivities)
    (p : TPath) :
    p ∈ (activitiesOutdatedPaths dp o n).1 ↔ (p, true) ∈ markList dp o n := by
  rw [aop_fst]
  simp only [List.mem_filterMap]
  constructor
  · rintro ⟨⟨q, b⟩, hx, hfx⟩
    cases b
    · simp at hfx
    · simp at hfx
      subst hfx
      exact hx
  · intro h
    exact ⟨(p, true), h, rfl⟩

theorem mem_stale_iff (dp : TPath) (o : Option LastActivities) (n : LastActivities)
    (p : TPath) :
    p ∈ (activitiesOutdatedPaths dp o n).2 ↔ (p, false) ∈ markList dp o n := by
  rw [aop_snd]
  simp only [List.mem_filterMap]
  constructor
  · rintro ⟨⟨q, b⟩, hx, hfx⟩
    cases b
    · simp at hfx
      subst hfx
      exact hx
    · simp at hfx
  · intro h
    exact ⟨(p, false), h, rfl⟩

theorem map_fst_markList (dp : TPath) (o : Option LastActivities)
    (n : LastActivities) :
    (markList dp o n).map Prod.fst = governedPaths dp := rfl

theorem nodup_governedSuffixes : governedSuffixes.Nodup := by decide

theorem nodup_governedPaths (dp : TPath) : (governedPaths dp).Nodup := by
  refine List.Nodup.map ?_ nodup_governedSuffixes
  intro s t h
  exact (List.append_right_inj dp).mp h

theorem snd_eq_of_nodup_fst {α β : Type} {ms : List (α × β)}
    (h : (ms.map Prod.fst).Nodup) {p : α} {a b : β}
    (ha : (p, a) ∈ ms) (hb : (p, b) ∈ ms) : a = b := by
  induction ms with
  | nil => cases ha
  | cons hd tl ih =>
    simp only [List.map_cons, List.nodup_cons] at h
    rcases List.mem_cons.mp ha with h1 | ha' <;>
      rcases List.mem_cons.mp hb with h2 | hb'
    · rw [← h1] at h2
      exact (Prod.mk.injEq _ _ _ _ ▸ h2).2.symm
    · exact absurd (List.mem_map_of_mem Prod.fst hb') (by rw [← h1] at h; exact h.1)
    · exact absurd (List.mem_map_of_mem Prod.fst ha') (by rw [← h2] at h; exact h.1)
    · exact ih h.2 ha' hb'

theorem mem_fresh_or_stale_iff (dp : TPath) (o : Option LastActivities)
    (n : LastActivities) (p : TPath) :
    (p ∈ (activitiesOutdatedPaths dp o n).1 ∨
     p ∈ (activitiesOutdatedPaths dp o n).2) ↔ p ∈ governedPaths dp := by
  rw [mem_fresh_iff, mem_stale_iff, ← map_fst_markList dp o n]
  constructor
  · rintro (h | h) <;> exact List.mem_map_of_mem Prod.fst h
  · intro h
    rcases List.mem_map.mp h with ⟨⟨q, b⟩, hx, hfst⟩
    cases hfst
    cases b
    · exact Or.inr hx
    · exact Or.inl hx

theorem not_mem_fresh_and_stale (dp : TPath) (o : Option LastActivities)
    (n : LastActivities) (p : TPath) :
    ¬ (p ∈ (activitiesOutdatedPaths dp o n).1 ∧
       p ∈ (activitiesOutdatedPaths dp o n).2) := by
  rintro ⟨hf, hs⟩
  rw [mem_fresh_iff] at hf
  rw [mem_stale_iff] at hs
  have : true = false :=
    snd_eq_of_nodup_fst
      (by rw [map_fst_markList]; exact nodup_governedPaths dp) hf hs
  cases this

/-- C3: for every input pair (old snapshot, possibly absent; new snapshot)
the classifier assigns every governed path to exactly one of the returned
fresh and stale lists: their union is the full governed set and they are
disjoint. -/
theorem classifier_partitions_governed (dp : TPath) (o : Option LastActivities)
    (n : LastActivities) :
    (∀ p, (p ∈ (activitiesOutdatedPaths dp o n).1 ∨
           p ∈ (activitiesOutdatedPaths dp o n).2) ↔ p ∈ governedPaths dp) ∧
    (∀ p, ¬ (p ∈ (activitiesOutdatedPaths dp o n).1 ∧
             p ∈ (activitiesOutdatedPaths dp o n).2)) :=
  ⟨mem_fresh_or_stale_iff dp o n, not_mem_fresh_and_stale dp o n⟩

theorem fresh_none_iff (dp : TPath) (n : LastActivities) (p : TPath) :
    p ∈ (activitiesOutdatedPaths dp none n).1 ↔
      (p ∈ hiddenGroup dp ∧ lastHiddenAtActivities n ≤ 0) := by
  rw [mem_fresh_iff]
  simp [markList, exportsTable, hiddenGroup, ge_iff_le, decide_eq_true_iff]
  tauto

/-- C6 (amended): with no old snapshot every governed path is classified
stale, except the five hidden-group files, which are fresh exactly when
the new snapshot's hidden watermark is at or before the Unix epoch (the
classifier substitutes the epoch for the missing old hidden watermark);
no other path is ever fresh. -/
theorem missing_snapshot_defaults_stale (dp : TPath) (n : LastActivities) :
    (∀ p, p ∈ (activitiesOutdatedPaths dp none n).1 ↔
      (p ∈ hiddenGroup dp ∧ lastHiddenAtActivities n ≤ 0)) ∧
    (∀ p, p ∈ governedPaths dp → p ∉ (activitiesOutdatedPaths dp none n).1 →
      p ∈ (activitiesOutdatedPaths dp none n).2) := by
  refine ⟨fresh_none_iff dp n, ?_⟩
  intro p hgov hnf
  rcases (mem_fresh_or_stale_iff dp none n p).mpr hgov with h | h
  · exact absurd h hnf
  · exact h

theorem missing_snapshot_defaults_stale_witness :
    (["user", "stats.json"] : TPath) ∈
      (activitiesOutdatedPaths [] none (constLA 1)).2 := by
  have h := missing_snapshot_defaults_stale [] (constLA 1)
  refine h.2 _ (by decide) ?_
  intro hf
  have hc := (h.1 _).mp hf
  exact absurd hc.2 (by decide)

/-- C6 counterexample: with no old snapshot but a new snapshot whose three
hidden-activity fields sit at the Unix epoch, the classifier places the
governed path `hidden/hidden-calendar.json` in the fresh set — the claim
that every governed path lands in the stale set and none in the fresh set
is false. -/
theorem missing_snapshot_defaults_stale_counterexample :
    (["hidden", "hidden-calendar.json"] : TPath) ∈
      (activitiesOutdatedPaths [] none (constLA 0)).1 ∧
    (["hidden", "hidden-calendar.json"] : TPath) ∈ governedPaths [] := by
  constructor <;> decide

set_option maxHeartbeats 1000000 in
/-- C1 (amended): for the two aggregate-governed files and for every entry
of the freshness mapping table, the classifier marks the file fresh if and
only if an old snapshot exists and the OLD snapshot's named activity field
is greater than or equal to the NEW snapshot's same field
(`_compare_datetime_strs(old, new)` — the opposite orientation to the
claim); otherwise the file is marked stale. -/
theorem mapping_table_freshness (dp : TPath) (oa : Option LastActivities)
    (n : LastActivities) :
    ((dp ++ ["user", "last-activities.json"]) ∈ (activitiesOutdatedPaths dp oa n).1 ↔
      ∃ o, oa = some o ∧ n.all ≤ o.all) ∧
    ((dp ++ ["user", "stats.json"]) ∈ (activitiesOutdatedPaths dp oa n).1 ↔
      ∃ o, oa = some o ∧ n.all ≤ o.all) ∧
    (∀ e ∈ exportsTable dp,
      (e.2 ∈ (activitiesOutdatedPaths dp oa n).1 ↔
        ∃ o, oa = some o ∧ e.1 n ≤ e.1 o)) ∧
    (∀ p, p ∈ governedPaths dp → p ∉ (activitiesOutdatedPaths dp oa n).1 →
      p ∈ (activitiesOutdatedPaths dp oa n).2) := by
  refine ⟨?_, ?_, ?_, ?_⟩
  · rw [mem_fresh_iff]
    rcases oa with _ | o <;>
      simp [markList, exportsTable, hiddenGroup, ge_iff_le, decide_eq_true_iff,
        compareDatetimeStrs, List.append_right_inj]
  · rw [mem_fresh_iff]
    rcases oa with _ | o <;>
      simp [markList, exportsTable, hiddenGroup, ge_iff_le, decide_eq_true_iff,
        compareDatetimeStrs, List.append_right_inj]
  · intro e he
    simp only [exportsTable, List.mem_cons, List.not_mem_nil, or_false] at he
    rw [mem_fresh_iff]
    rcases oa with _ | o <;>
      rcases he with rfl|rfl|rfl|rfl|rfl|rfl|rfl|rfl|rfl|rfl|rfl|rfl|rfl|rfl|rfl|rfl|rfl|rfl|rfl|rfl <;>
      simp [markList, exportsTable, hiddenGroup, ge_iff_le, decide_eq_true_iff,
        compareDatetimeStrs, List.append_right_inj]
  · intro p hgov hnf
    rcases (mem_fresh_or_stale_iff dp oa n p).mpr hgov with h | h
    · exact absurd h hnf
    · exact h

theorem mapping_table_freshness_witness :
    ((["user", "stats.json"] : TPath) ∈
      (activitiesOutdatedPaths [] (some (constLA 0)) (constLA 0)).1) ∧
    ((["collection", "collection-movies.json"] : TPath) ∈
      (activitiesOutdatedPaths [] (some (constLA 0)) (constLA 0)).1) ∧
    ((["user", "profile.json"] : TPath) ∈
      (activitiesOutdatedPaths [] (some (constLA 0)) (constLA 1)).2) := by
  have h0 := mapping_table_freshness [] (some (constLA 0)) (constLA 0)
  have h1 := mapping_table_freshness [] (some (constLA 0)) (constLA 1)
  refine ⟨h0.2.1.mpr ⟨constLA 0, rfl, by decide⟩, ?_, ?_⟩
  · exact (h0.2.2.1 (fun a => a.movies.collected_at,
      [] ++ ["collection", "collection-movies.json"])
      (List.mem_cons_self _ _)).mpr ⟨constLA 0, rfl, by decide⟩
  · exact h1.2.2.2 _ (by decide) (by decide)

/-- C1 counterexample: old snapshot with every field at `0`, new snapshot
with every field at `1`.  The new `all` field is ≥ the old one, so the
claim classifies the aggregate-governed `user/stats.json` and the
mapping-table entry `collection/collection-movies.json` as fresh — but the
code compares in the opposite direction and marks both stale. -/
theorem mapping_table_freshness_counterexample :
    (constLA 0).all ≤ (constLA 1).all ∧
    (["user", "stats.json"] : TPath) ∉
      (activitiesOutdatedPaths [] (some (constLA 0)) (constLA 1)).1 ∧
    (["user", "stats.json"] : TPath) ∈
      (activitiesOutdatedPaths [] (some (constLA 0)) (constLA 1)).2 ∧
    (["collection", "collection-movies.json"] : TPath) ∉
      (activitiesOutdatedPaths [] (some (constLA 0)) (constLA 1)).1 ∧
    (["collection", "collection-movies.json"] : TPath) ∈
      (activitiesOutdatedPaths [] (some (constLA 0)) (constLA 1)).2 := by
  refine ⟨by decide, by decide, by decide, by decide, by decide⟩

/-! ### Orchestrator fetch decisions -/

/-- C2 evidence: with `watched/history.json` configured as an excluded
path, classified stale and absent from disk, `_export_watched_history`
still issues its remote fetch — it never consults `_excluded`, unlike the
other exporters (contrast `_export_user_stats`, which skips the fetch for
its excluded output path under the analogous context). -/
theorem watched_history_fetch_ignores_exclusion :
    excluded ⟨[], [["watched", "history.json"]], [], [["watched", "history.json"]]⟩
        (([] : TPath) ++ ["watched", "history.json"]) = true ∧
    exportWatchedHistoryFetches []
        ⟨[], [["watched", "history.json"]], [], [["watched", "history.json"]]⟩ = true ∧
    exportUserStatsFetches []
        ⟨[], [["user", "stats.json"]], [], [["user", "stats.json"]]⟩ = false := by
  refine ⟨rfl, rfl, rfl⟩

/-- C8: a path absent from disk is never reported fresh by `_fresh`, even
when it is a member of the computed fresh set, so it is treated as stale
and fetched. -/
theorem fresh_requires_existence (disk : List TPath) (ctx : Ctx) (p : TPath)
    (hdisk : p ∉ disk) (_hmem : p ∈ ctx.freshPaths) :
    freshCheck disk ctx p = false := by
  unfold freshCheck
  rw [if_pos hdisk]

theorem fresh_requires_existence_witness :
    freshCheck [] ⟨[], [], [["user", "stats.json"]], []⟩ ["user", "stats.json"] = false :=
  fresh_requires_existence [] ⟨[], [], [["user", "stats.json"]], []⟩
    ["user", "stats.json"] (by decide) (by decide)

/-! ### JSON persistence -/

theorem fsGet_fsSet (fs : FState) (p : TPath) (r : FileRec) :
    fsGet (fsSet fs p r) p = some r := by
  simp [fsGet, fsSet]

/-- C7 (amended): for every nonzero semantic modification time `t`,
writing a file via `write_json(path, obj, mtime=t)` yields a read-back
modification time equal to `t`.  (For `t = 0` the Python truthiness test
`if mtime:` skips the `os.utime` call and the wall-clock write time is
kept instead.) -/
theorem write_json_mtime_roundtrip (fs : FState) (p : TPath) (data : String)
    (t wc : Int) (h : t ≠ 0) :
    (fsGet (writeJson fs p data (some t) wc) p).map (fun r => r.mtime) = some t := by
  simp [writeJson, h, fsGet_fsSet]

theorem write_json_mtime_roundtrip_witness :
    (fsGet (writeJson [] ["user", "stats.json"] "x" (some 5) 100)
      ["user", "stats.json"]).map (fun r => r.mtime) = some 5 :=
  write_json_mtime_roundtrip [] ["user", "stats.json"] "x" 5 100 (by decide)

/-- C7 counterexample: writing with the semantic modification time `t = 0`
(the Unix epoch) at wall-clock time `100` leaves the file's modification
time at `100`, not `t` — `if mtime:` is false for `0.0`, so the claim
fails for that `t`. -/
theorem write_json_mtime_zero_counterexample :
    (fsGet (writeJson [] ["user", "stats.json"] "x" (some 0) 100)
      ["user", "stats.json"]).map (fun r => r.mtime) = some 100 ∧
    ¬ ((fsGet (writeJson [] ["user", "stats.json"] "x" (some 0) 100)
      ["user", "stats.json"]).map (fun r => r.mtime) = some 0) := by
  refine ⟨rfl, by decide⟩

/-! ### Cache pruning -/

theorem foldl_congr_id {α β : Type} (l : List β) (g : α → β → α)
    (h : ∀ a b, g a b = a) : ∀ acc, l.foldl g acc = acc := by
  induction l with
  | nil => intro acc; rfl
  | cons hd tl ih => intro acc; rw [List.foldl_cons, h]; exact ih acc

/-- C10: running the cache pruner with `dry_run = True` deletes nothing:
the directory contents after the call equal the contents before it, for
every pool, age threshold, limit and shuffle outcome. -/
theorem prune_cache_dir_dry_run (files : List (TPath × Int)) (now minAgeSecs : Int)
    (limitAbs : ℕ) (shuffled : List ℕ) :
    pruneCacheDir files now minAgeSecs limitAbs shuffled true = files := by
  unfold pruneCacheDir
  simp only [reduceIte]
  split
  · rfl
  · split
    · rfl
    · exact foldl_congr_id _ _ (fun a b => rfl) files

/-! ### Partitioned file store -/

theorem digitVal_digitChar (m : ℕ) (h : m < 10) : digitVal (Nat.digitChar m) = m := by
  interval_cases m <;> rfl

theorem toDigitsCore_acc (b : ℕ) : ∀ (f n : ℕ) (ds : List Char),
    Nat.toDigitsCore b f n ds = Nat.toDigitsCore b f n [] ++ ds := by
  intro f
  induction f with
  | zero => intro n ds; rfl
  | succ f ih =>
    intro n ds
    simp only [Nat.toDigitsCore]
    by_cases h : n / b = 0
    · simp [h]
    · rw [if_neg h, if_neg h, ih (n / b) (Nat.digitChar (n % b) :: ds),
        ih (n / b) [Nat.digitChar (n % b)]]
      simp

theorem toDigitsCore_val : ∀ (f n a : ℕ), n < f →
    digitsVal a (Nat.toDigitsCore 10 f n []) =
      a * 10 ^ (Nat.toDigitsCore 10 f n []).length + n := by
  intro f
  induction f with
  | zero => intro n a h; omega
  | succ f ih =>
    intro n a h
    simp only [Nat.toDigitsCore]
    by_cases h0 : n / 10 = 0
    · rw [if_pos h0]
      have hm : n % 10 < 10 := Nat.mod_lt _ (by norm_num)
      simp [digitsVal, digitVal_digitChar _ hm]
      omega
    · rw [if_neg h0, toDigitsCore_acc 10 f (n / 10) [Nat.digitChar (n % 10)]]
      have hlt : n / 10 < f := by omega
      have hm : n % 10 < 10 := Nat.mod_lt _ (by norm_num)
      have hih := ih (n / 10) a hlt
      simp only [digitsVal, List.foldl_append, List.foldl_cons, List.foldl_nil,
        List.length_append, List.length_cons, List.length_nil] at *
      rw [hih, digitVal_digitChar _ hm]
      have hpow : 10 ^ ((Nat.toDigitsCore 10 f (n / 10) []).length + (0 + 1))
          = 10 ^ (Nat.toDigitsCore 10 f (n / 10) []).length * 10 := by
        rw [pow_succ]
      generalize (10 : ℕ) ^ (Nat.toDigitsCore 10 f (n / 10) []).length = K at *
      have : n = 10 * (n / 10) + n % 10 := (Nat.div_add_mod n 10).symm ▸ by omega
      nlinarith [this]

theorem natRepr_injective : Function.Injective Nat.repr := by
  intro m n h
  have hdata : Nat.toDigits 10 m = Nat.toDigits 10 n := by
    have hd := congrArg String.data h
    simpa [Nat.repr, List.asString] using hd
  have hm := toDigitsCore_val (m + 1) m 0 (Nat.lt_succ_self m)
  have hn := toDigitsCore_val (n + 1) n 0 (Nat.lt_succ_self n)
  unfold Nat.toDigits at hdata
  rw [hdata] at hm
  simp only [zero_mul, zero_add] at hm hn
  rw [hm] at hn
  exact hn

theorem string_append_right_cancel {a b c : String} (h : a ++ c = b ++ c) : a = b := by
  have hd := congrArg String.data h
  simp only [String.data_append] at hd
  exact String.ext ((List.append_left_inj c.data).mp hd)

/-- C9: `partition_filename` returns `basedir/<prefix>/<id><suffix>` with
the two-character prefix of the decimal id (single-digit ids padded with a
trailing zero: `7 → "70"`, `42 → "42"`); it is a pure total function,
distinct ids map to distinct paths, and ids sharing a prefix land in the
same subdirectory. -/
theorem partition_filename_spec (basedir : TPath) (suffix : String) :
    (∀ id : ℕ, partitionFilename basedir id suffix
        = basedir ++ [idShard id, Nat.repr id ++ suffix]) ∧
    idShard 7 = "70" ∧ idShard 42 = "42" ∧
    (∀ id1 id2 : ℕ, id1 ≠ id2 →
      partitionFilename basedir id1 suffix ≠ partitionFilename basedir id2 suffix) ∧
    (∀ id1 id2 : ℕ, idShard id1 = idShard id2 →
      pathParent (partitionFilename basedir id1 suffix)
        = pathParent (partitionFilename basedir id2 suffix)) := by
  refine ⟨fun id => rfl, by decide, by decide, ?_, ?_⟩
  · intro id1 id2 hne heq
    unfold partitionFilename at heq
    have h2 := (List.append_right_inj basedir).mp heq
    simp only [List.cons.injEq, and_true] at h2
    exact hne (natRepr_injective (string_append_right_cancel h2.2))
  · intro id1 id2 hsh
    unfold partitionFilename pathParent
    have e1 : basedir ++ [idShard id1, Nat.repr id1 ++ suffix]
        = (basedir ++ [idShard id1]) ++ [Nat.repr id1 ++ suffix] := by simp
    have e2 : basedir ++ [idShard id2, Nat.repr id2 ++ suffix]
        = (basedir ++ [idShard id2]) ++ [Nat.repr id2 ++ suffix] := by simp
    rw [e1, e2, List.dropLast_concat, List.dropLast_concat, hsh]

theorem partition_filename_spec_witness :
    partitionFilename [] 7 ".json" ≠ partitionFilename [] 42 ".json" ∧
    pathParent (partitionFilename [] 42 ".json")
      = pathParent (partitionFilename [] 428 ".json") := by
  have h := partition_filename_spec [] ".json"
  exact ⟨h.2.2.2.1 7 42 (by decide), h.2.2.2.2 42 428 (by decide)⟩

/-! ### Weighted eviction selector -/

theorem weightedShuffle_cases (values : List ℚ) (limit : ℕ) (draws : ℕ → ℚ) :
    ∃ perm : List ℕ, perm.Perm (List.range values.length) ∧
      weightedShuffle values limit draws =
        (if perm.length ≤ limit then perm else perm.take limit) := by
  unfold weightedShuffle
  refine ⟨_, ?_, rfl⟩
  have h1 := List.perm_insertionSort keyDescOrder
    (((values.map (fun v => 1 / v)).map
        (fun w => w / (values.map (fun v => 1 / v)).sum)).enum.map
      (fun iw => (iw.2 * draws iw.1, iw.1)))
  have h2 := h1.map (fun ki : ℚ × ℕ => ki.2)
  refine h2.trans ?_
  rw [List.map_map]
  have : ((fun ki : ℚ × ℕ => ki.2) ∘ fun iw : ℕ × ℚ => (iw.2 * draws iw.1, iw.1))
      = Prod.fst := rfl
  rw [this, List.enum_map_fst]
  simp

theorem selectExpired_length_le (cands : List ℚ) (limit : ℕ) (draws : ℕ → ℚ) :
    (selectExpired cands limit draws).length ≤ limit := by
  unfold selectExpired
  split
  · simp
  · obtain ⟨perm, hperm, heq⟩ := weightedShuffle_cases cands limit draws
    rw [heq]
    split
    · assumption
    · simp only [List.length_take]
      exact Nat.min_le_left limit perm.length

theorem selectExpired_mem_lt (cands : List ℚ) (limit : ℕ) (draws : ℕ → ℚ) :
    ∀ i ∈ selectExpired cands limit draws, i < cands.length := by
  intro i hi
  unfold selectExpired at hi
  split at hi
  · simp at hi
  · obtain ⟨perm, hperm, heq⟩ := weightedShuffle_cases cands limit draws
    rw [heq] at hi
    have hip : i ∈ perm := by
      split at hi
      · exact hi
      · exact List.take_subset _ _ hi
    exact List.mem_range.mp (hperm.mem_iff.mp hip)

theorem selectExpired_nodup (cands : List ℚ) (limit : ℕ) (draws : ℕ → ℚ) :
    (selectExpired cands limit draws).Nodup := by
  unfold selectExpired
  split
  · simp
  · obtain ⟨perm, hperm, heq⟩ := weightedShuffle_cases cands limit draws
    rw [heq]
    have hnd : perm.Nodup := hperm.nodup_iff.mpr (List.nodup_range _)
    split
    · exact hnd
    · exact hnd.sublist (List.take_sublist _ _)

theorem selectExpired_full (cands : List ℚ) (k : ℕ) (draws : ℕ → ℚ) :
    ∀ i, i ∈ selectExpired cands (cands.length + k) draws ↔ i < cands.length := by
  intro i
  unfold selectExpired
  split
  · next h =>
    rw [List.isEmpty_iff] at h
    subst h
    simp
  · obtain ⟨perm, hperm, heq⟩ := weightedShuffle_cases cands (cands.length + k) draws
    rw [heq]
    have hlen : perm.length = cands.length := by
      rw [hperm.length_eq, List.length_range]
    rw [if_pos (by omega)]
    rw [hperm.mem_iff, List.mem_range]

/-- C5: the eviction selection (positions into the candidate pool) never
exceeds `limit`, never selects a position outside the pool, never repeats
a selection, returns nothing for `limit = 0`, returns the full pool as a
set whenever `limit ≥ len(candidates)` (here `limit = len + k`), and an
empty candidate pool yields an empty selection without error. -/
theorem select_expired_bounds (cands : List ℚ) (limit k : ℕ) (draws : ℕ → ℚ) :
    (selectExpired cands limit draws).length ≤ limit ∧
    (∀ i ∈ selectExpired cands limit draws, i < cands.length) ∧
    (selectExpired cands limit draws).Nodup ∧
    selectExpired cands 0 draws = [] ∧
    (∀ i, i ∈ selectExpired cands (cands.length + k) draws ↔ i < cands.length) ∧
    selectExpired [] limit draws = [] := by
  refine ⟨selectExpired_length_le cands limit draws,
    selectExpired_mem_lt cands limit draws,
    selectExpired_nodup cands limit draws,
    ?_, selectExpired_full cands k draws, rfl⟩
  have h := selectExpired_length_le cands 0 draws
  exact List.eq_nil_of_length_eq_zero (Nat.le_zero.mp h)

theorem weightedShuffle_pair (a1 a2 : ℕ) (h2 : 0 < a2) (h12 : a2 < a1)
    (j0 j1 N : ℕ) (hN : 0 < N) :
    weightedShuffle [(a2 : ℚ), (a1 : ℚ)] 1 (gridDraws N j0 j1)
      = if a1 * j0 ≤ a2 * j1 then [1] else [0] := by
  have ha2 : (0 : ℚ) < (a2 : ℚ) := by exact_mod_cast h2
  have ha1 : (0 : ℚ) < (a1 : ℚ) := by
    have h : (0 : ℕ) < a1 := lt_trans h2 h12
    exact_mod_cast h
  have hNq : (0 : ℚ) < (N : ℚ) := by exact_mod_cast hN
  have hT : (0 : ℚ) < 1 / (a2 : ℚ) + 1 / (a1 : ℚ) := by positivity
  have e1 : 1 / (a1 : ℚ) / (1 / (a2 : ℚ) + 1 / (a1 : ℚ)) * ((j1 : ℚ) / N)
      = (j1 : ℚ) / ((a1 : ℚ) * ((1 / (a2 : ℚ) + 1 / (a1 : ℚ)) * N)) := by
    field_simp
    ring
  have e2 : 1 / (a2 : ℚ) / (1 / (a2 : ℚ) + 1 / (a1 : ℚ)) * ((j0 : ℚ) / N)
      = (j0 : ℚ) / ((a2 : ℚ) * ((1 / (a2 : ℚ) + 1 / (a1 : ℚ)) * N)) := by
    field_simp
    ring
  have key : (1 / (a1 : ℚ) / (1 / (a2 : ℚ) + 1 / (a1 : ℚ)) * ((j1 : ℚ) / N)
        < 1 / (a2 : ℚ) / (1 / (a2 : ℚ) + 1 / (a1 : ℚ)) * ((j0 : ℚ) / N))
      ↔ a2 * j1 < a1 * j0 := by
    rw [e1, e2, div_lt_div_iff₀ (by positivity) (by positivity),
      show (j1 : ℚ) * ((a2 : ℚ) * ((1 / (a2 : ℚ) + 1 / (a1 : ℚ)) * N))
          = ((a2 : ℚ) * j1) * ((1 / (a2 : ℚ) + 1 / (a1 : ℚ)) * N) from by ring,
      show (j0 : ℚ) * ((a1 : ℚ) * ((1 / (a2 : ℚ) + 1 / (a1 : ℚ)) * N))
          = ((a1 : ℚ) * j0) * ((1 / (a2 : ℚ) + 1 / (a1 : ℚ)) * N) from by ring,
      mul_lt_mul_right (by positivity)]
    exact_mod_cast Iff.rfl
  unfold weightedShuffle gridDraws
  simp only [List.map_cons, List.map_nil, List.sum_cons, List.sum_nil, add_zero,
    List.enum, List.enumFrom, List.insertionSort, List.orderedInsert]
  simp only [reduceIte, Nat.reduceAdd, if_true, one_ne_zero, ite_false]
  by_cases hord : keyDescOrder
      (1 / (a2 : ℚ) / (1 / (a2 : ℚ) + 1 / (a1 : ℚ)) * ((j0 : ℚ) / N), 0)
      (1 / (a1 : ℚ) / (1 / (a2 : ℚ) + 1 / (a1 : ℚ)) * ((j1 : ℚ) / N), 1)
  · rw [if_pos hord]
    have hlt : a2 * j1 < a1 * j0 := by
      rcases hord with hlt | ⟨heq, hle⟩
      · exact key.mp hlt
      · omega
    simp only [List.map_cons, List.map_nil, List.length_cons, List.length_nil]
    rw [if_neg (by omega), if_neg (by omega)]
    rfl
  · rw [if_neg hord]
    have hle : a1 * j0 ≤ a2 * j1 := by
      have hnlt : ¬ (1 / (a1 : ℚ) / (1 / (a2 : ℚ) + 1 / (a1 : ℚ)) * ((j1 : ℚ) / N)
          < 1 / (a2 : ℚ) / (1 / (a2 : ℚ) + 1 / (a1 : ℚ)) * ((j0 : ℚ) / N)) := by
        intro hlt
        exact hord (Or.inl hlt)
      have hnot := key.not.mp hnlt
      omega
    simp only [List.map_cons, List.map_nil, List.length_cons, List.length_nil]
    rw [if_neg (by omega), if_pos hle]
    rfl

theorem olderSelCount_eq (a1 a2 N : ℕ) (h2 : 0 < a2) (h12 : a2 < a1) (hN : 0 < N) :
    olderSelCount a1 a2 N
      = (((Finset.range N) ×ˢ (Finset.range N)).filter
          (fun jj => a1 * jj.1 ≤ a2 * jj.2)).card := by
  unfold olderSelCount
  congr 1
  apply Finset.filter_congr
  intro jj _
  rw [weightedShuffle_pair a1 a2 h2 h12 jj.1 jj.2 N hN]
  by_cases hc : a1 * jj.1 ≤ a2 * jj.2
  · simp [hc]
  · simp [hc]

theorem youngerSelCount_eq (a1 a2 N : ℕ) (h2 : 0 < a2) (h12 : a2 < a1) (hN : 0 < N) :
    youngerSelCount a1 a2 N
      = (((Finset.range N) ×ˢ (Finset.range N)).filter
          (fun jj => a2 * jj.2 < a1 * jj.1)).card := by
  unfold youngerSelCount
  congr 1
  apply Finset.filter_congr
  intro jj _
  rw [weightedShuffle_pair a1 a2 h2 h12 jj.1 jj.2 N hN]
  by_cases hc : a1 * jj.1 ≤ a2 * jj.2
  · simp [hc, not_lt.mpr hc]
  · simp [hc, not_le.mp hc]

set_option maxRecDepth 40000 in
/-- C4 counterexample: two candidates with ages `2 > 1` (all else equal),
`limit = 1`, draws uniform over the `16 × 16` grid model of the random
source: `_weighted_shuffle` selects the older file in strictly FEWER
outcomes than the younger one (72 of 256 versus 184 of 256), so the older
file's selection probability is strictly smaller, not greater — the
`1/age` weights bias the selection toward the youngest entries. -/
theorem older_file_selected_less_counterexample :
    olderSelCount 2 1 16 < youngerSelCount 2 1 16 := by
  rw [olderSelCount_eq 2 1 16 (by norm_num) (by norm_num) (by norm_num),
    youngerSelCount_eq 2 1 16 (by norm_num) (by norm_num) (by norm_num)]
  decide

/-- C4 (amended): for every pair of ages `a1 > a2 > 0` and every grid
resolution `N ≥ 3` of the uniform random source, the eviction selector
includes the older file in strictly FEWER outcomes than the younger file,
while the older file's selection probability remains nonzero.  (The
packaged `prune_cache_dir` variant replaces the weighted shuffle by a
uniform `random.shuffle`, under which the two probabilities are equal —
under neither implementation is the older file favoured.) -/
theorem age_weighting_biases_younger (a1 a2 N : ℕ) (h2 : 0 < a2) (h12 : a2 < a1)
    (hN : 3 ≤ N) :
    olderSelCount a1 a2 N < youngerSelCount a1 a2 N ∧ 0 < olderSelCount a1 a2 N := by
  have hN0 : 0 < N := by omega
  rw [olderSelCount_eq a1 a2 N h2 h12 hN0, youngerSelCount_eq a1 a2 N h2 h12 hN0]
  set U : Finset (ℕ × ℕ) := (Finset.range N) ×ˢ (Finset.range N) with hU
  set O : Finset (ℕ × ℕ) := U.filter (fun jj => a1 * jj.1 ≤ a2 * jj.2) with hO
  set Y : Finset (ℕ × ℕ) := U.filter (fun jj => a2 * jj.2 < a1 * jj.1) with hY
  have hUcard : U.card = N * N := by
    rw [hU, Finset.card_product, Finset.card_range]
  have hOY : O.card + Y.card = U.card := by
    rw [hO, hY]
    have hneg : U.filter (fun jj => a2 * jj.2 < a1 * jj.1)
        = U.filter (fun jj => ¬ (a1 * jj.1 ≤ a2 * jj.2)) := by
      apply Finset.filter_congr
      intro jj _
      omega
    rw [hneg]
    exact Finset.filter_card_add_filter_neg_card_eq_card
      (fun jj : ℕ × ℕ => a1 * jj.1 ≤ a2 * jj.2)
  have hOzero : (0, 0) ∈ O := by
    rw [hO, Finset.mem_filter]
    refine ⟨?_, by simp⟩
    rw [hU, Finset.mem_product]
    simp [hN0]
  have hOpos : 0 < O.card := Finset.card_pos.mpr ⟨(0, 0), hOzero⟩
  set Os : Finset (ℕ × ℕ) := O.image Prod.swap with hOs
  have hOscard : Os.card = O.card := Finset.card_image_of_injective O Prod.swap_injective
  have hOsubU : O ⊆ U := Finset.filter_subset _ _
  have hOsSubU : Os ⊆ U := by
    intro x hx
    rw [hOs] at hx
    rcases Finset.mem_image.mp hx with ⟨y, hy, hswap⟩
    have hyU := hOsubU hy
    rw [hU, Finset.mem_product] at hyU ⊢
    rw [← hswap]
    exact ⟨hyU.2, hyU.1⟩
  have hmemO : ∀ x : ℕ × ℕ, x ∈ O → a1 * x.1 ≤ a2 * x.2 := by
    intro x hx
    exact (Finset.mem_filter.mp hx).2
  have hmemOs : ∀ x : ℕ × ℕ, x ∈ Os → a1 * x.2 ≤ a2 * x.1 := by
    intro x hx
    rcases Finset.mem_image.mp hx with ⟨y, hy, hswap⟩
    have := hmemO y hy
    rw [← hswap]
    simpa using this
  have hinter : O ∩ Os ⊆ {(0, 0)} := by
    intro x hx
    rw [Finset.mem_inter] at hx
    have h1 := hmemO x hx.1
    have h2' := hmemOs x hx.2
    have hsum : a1 * x.1 + a1 * x.2 ≤ a2 * x.1 + a2 * x.2 := by linarith
    have hzero : x.1 + x.2 = 0 := by
      by_contra hne
      have hs : 0 < x.1 + x.2 := by omega
      have : a2 * (x.1 + x.2) < a1 * (x.1 + x.2) :=
        Nat.mul_lt_mul_of_lt_of_le h12 (le_refl _) hs
      rw [mul_add, mul_add] at this
      omega
    have hx1 : x.1 = 0 := by omega
    have hx2 : x.2 = 0 := by omega
    rw [Finset.mem_singleton]
    rw [Prod.ext_iff]
    exact ⟨hx1, hx2⟩
  have h11 : (1, 1) ∉ O ∪ Os := by
    intro hmem
    rcases Finset.mem_union.mp hmem with h | h
    · have := hmemO _ h
      simp at this
      omega
    · have := hmemOs _ h
      simp at this
      omega
  have h22 : (2, 2) ∉ O ∪ Os := by
    intro hmem
    rcases Finset.mem_union.mp hmem with h | h
    · have := hmemO _ h
      simp at this
      omega
    · have := hmemOs _ h
      simp at this
      omega
  have hpairU : ({(1, 1), (2, 2)} : Finset (ℕ × ℕ)) ⊆ U := by
    intro x hx
    rw [hU, Finset.mem_product]
    rcases Finset.mem_insert.mp hx with rfl | hx'
    · simp
      omega
    · rw [Finset.mem_singleton] at hx'
      subst hx'
      simp
      omega
  have hsub : O ∪ Os ⊆ U \ {(1, 1), (2, 2)} := by
    intro x hx
    rw [Finset.mem_sdiff]
    refine ⟨?_, ?_⟩
    · rcases Finset.mem_union.mp hx with h | h
      · exact hOsubU h
      · exact hOsSubU h
    · intro hmem
      rcases Finset.mem_insert.mp hmem with rfl | hx'
      · exact h11 hx
      · rw [Finset.mem_singleton] at hx'
        subst hx'
        exact h22 hx
  have hcard2 : ({(1, 1), (2, 2)} : Finset (ℕ × ℕ)).card = 2 :=
    Finset.card_pair (by decide)
  have hunion : (O ∪ Os).card ≤ N * N - 2 := by
    calc (O ∪ Os).card ≤ (U \ {(1, 1), (2, 2)}).card := Finset.card_le_card hsub
    _ = U.card - 2 := by rw [Finset.card_sdiff hpairU, hcard2]
    _ = N * N - 2 := by rw [hUcard]
  have hintercard : (O ∩ Os).card ≤ 1 := by
    calc (O ∩ Os).card ≤ ({(0, 0)} : Finset (ℕ × ℕ)).card := Finset.card_le_card hinter
    _ = 1 := Finset.card_singleton _
  have hsumcard : (O ∪ Os).card + (O ∩ Os).card = O.card + Os.card :=
    Finset.card_union_add_card_inter O Os
  have hNN : 9 ≤ N * N := by nlinarith
  constructor
  · omega
  · exact hOpos

theorem age_weighting_biases_younger_witness :
    olderSelCount 3 2 4 < youngerSelCount 3 2 4 ∧ 0 < olderSelCount 3 2 4 :=
  age_weighting_biases_younger 3 2 4 (by decide) (by decide) (by decide)
